import Mathlib

/-!
Verification of the SERTEMP CRPS scoring module.

The source computes the mean continuous ranked probability score (CRPS) of
quantile temperature forecasts, plus an interval-coverage diagnostic.
Numeric values are modelled as rationals; the fallible operations
(interpolation with a possibly zero denominator, the final mean over a
possibly empty table) return `Option`, with `none` standing for the Python
exception.  A submission table is a list of rows, each row a list of
rationals; the solution table is its "Temperature" column.
-/

namespace SERTEMP

/-- The 23 competition-fixed quantile levels, including the 0% and 100%
endpoints (source list `quantiles`). -/
def quantiles : List ℚ :=
  [0, 1/40, 1/20, 1/10, 3/20, 1/5, 1/4, 3/10, 7/20, 2/5, 9/20, 1/2,
   11/20, 3/5, 13/20, 7/10, 3/4, 4/5, 17/20, 9/10, 19/20, 39/40, 1]

/-- The fixed lower extremal value appended to every row (source: `-30.0`). -/
def sentinelLow : ℚ := -30

/-- The fixed upper extremal value appended to every row (source: `60.0`). -/
def sentinelHigh : ℚ := 60

/-- Python `row[-n:]`: the last `n` entries of a row (the whole row when it
is shorter than `n`). -/
def lastN (n : Nat) (l : List ℚ) : List ℚ := l.drop (l.length - n)

/-- The row values with the two extremal values appended and then sorted
ascending (source lines 33-35). -/
def sortedXValues (preds : List ℚ) : List ℚ :=
  List.insertionSort (· ≤ ·) (preds ++ [sentinelLow, sentinelHigh])

/-- The sorted values paired positionally with the fixed quantile levels:
the value at sorted index `i` is paired with `quantiles[i]`, exactly as the
source reads `quantiles[i]` for an index `i` into the sorted `x_values`. -/
def curve (preds : List ℚ) : List (ℚ × ℚ) := (sortedXValues preds).zip quantiles

/-- The (value, level) pairs whose value is strictly below the ground truth
(source `LHS_keys` / `LHS_values` / `LHS_quantiles`). -/
def lhsPart (preds : List ℚ) (yTrue : ℚ) : List (ℚ × ℚ) :=
  (curve preds).filter (fun p => decide (p.1 < yTrue))

/-- The (value, level) pairs whose value is at or above the ground truth
(source `RHS_keys` / `RHS_values` / `RHS_quantiles`). -/
def rhsPart (preds : List ℚ) (yTrue : ℚ) : List (ℚ × ℚ) :=
  (curve preds).filter (fun p => decide (p.1 ≥ yTrue))

/-- Source loop `LHS_integral`: sum over consecutive pairs of
`0.5 * (x[i+1] - x[i]) * (q[i]^2 + q[i+1]^2)`. -/
def trapCDF : List (ℚ × ℚ) → ℚ
  | [] => 0
  | a :: rest =>
    (match rest with
     | [] => 0
     | b :: _ => 1/2 * (b.1 - a.1) * (a.2 ^ 2 + b.2 ^ 2)) + trapCDF rest

/-- Source loop `RHS_integral`: sum over consecutive pairs of
`0.5 * (x[i+1] - x[i]) * ((1 - q[i])^2 + (1 - q[i+1])^2)`. -/
def trapSurv : List (ℚ × ℚ) → ℚ
  | [] => 0
  | a :: rest =>
    (match rest with
     | [] => 0
     | b :: _ => 1/2 * (b.1 - a.1) * ((1 - a.2) ^ 2 + (1 - b.2) ^ 2)) + trapSurv rest

/-- One row's CRPS contribution (source lines 39-74): take the boundary
points of the two partitions, interpolate the level at the ground truth,
extend both partitions with the interpolated point, and add the two
trapezoidal integrals.  `none` models the Python `IndexError` on an empty
partition or the `ZeroDivisionError` when the boundary values coincide. -/
def rowScore (preds : List ℚ) (yTrue : ℚ) : Option ℚ :=
  match (lhsPart preds yTrue).getLast?, (rhsPart preds yTrue).head? with
  | some l, some r =>
    if r.1 - l.1 = 0 then none
    else
      some (trapCDF (lhsPart preds yTrue ++
              [(yTrue, (r.2 - l.2) * (yTrue - l.1) / (r.1 - l.1) + l.2)]) +
            trapSurv ((yTrue, (r.2 - l.2) * (yTrue - l.1) / (r.1 - l.1) + l.2) ::
              rhsPart preds yTrue))
  | _, _ => none

/-- The mean CRPS (source `crps`): the ground-truth column is inserted at
the front of each row, each row contributes `rowScore` of its last 21
columns, the contributions are accumulated, and the total is divided by the
number of submission rows.  `none` models the row-level failures and the
`ZeroDivisionError` of the final division when the table is empty. -/
def crps (submission : List (List ℚ)) (solution : List ℚ) : Option ℚ :=
  match (solution.zip submission).foldlM
      (fun acc p => (rowScore (lastN 21 (p.1 :: p.2)) p.1).map (fun c => acc + c))
      (0 : ℚ) with
  | none => none
  | some total =>
    if submission.length = 0 then none else some (total / (submission.length : ℚ))

/-- The source `crps` routine with the observable state of both input
tables threaded through explicitly: `submission.copy()` produces a fresh
table, the `Temperature` column is inserted into that copy only, and the
routine hands back the two input tables exactly as it received them,
together with the score. -/
def crpsRun (submission : List (List ℚ)) (solution : List ℚ) :
    Option ℚ × List (List ℚ) × List ℚ :=
  let submissionTmp := submission.map (fun r => r)
  let withTemperature := (solution.zip submissionTmp).map (fun p => p.1 :: p.2)
  let result :=
    match withTemperature.foldlM
        (fun acc row => (rowScore (lastN 21 row) (row.headD 0)).map (fun c => acc + c))
        (0 : ℚ) with
    | none => none
    | some total =>
      if submission.length = 0 then none else some (total / (submission.length : ℚ))
  (result, submission, solution)

/-- The ten nominal coverage levels, in the source's order (descending). -/
def coverages : List ℕ := [95, 90, 80, 70, 60, 50, 40, 30, 20, 10]

/-- Source `lower_col = 2*N+1-i` with `N = len(coverages)`. -/
def lowerCol (i : ℕ) : ℕ := 2 * coverages.length + 1 - i

/-- Source `upper_col = i+1`. -/
def upperCol (i : ℕ) : ℕ := i + 1

/-- Python `df.iloc[:, -k]`: the column situated `k` places from the end of
each row. -/
def colFromEnd (df : List (List ℚ)) (k : ℕ) : List ℚ :=
  df.map (fun row => row.getD (row.length - k) 0)

/-- Source `mean_coverage`: the mean of the boolean series
`(y_pred_low <= y_true) & (y_pred_up >= y_true)`. -/
def meanCoverage (yPredLow yTrue yPredUp : List ℚ) : ℚ :=
  (((yPredLow.zip (yTrue.zip yPredUp)).countP
      (fun p => decide (p.1 ≤ p.2.1) && decide (p.2.2 ≥ p.2.1))) : ℚ) /
    (yPredLow.length : ℚ)

/-- Round-half-to-even to an integer, the tie rule of Python `round`. -/
def roundHalfEven (x : ℚ) : ℤ :=
  if x - Int.floor x < 1/2 then Int.floor x
  else if x - Int.floor x = 1/2 then
    (if Int.floor x % 2 = 0 then Int.floor x else Int.floor x + 1)
  else Int.floor x + 1

/-- Python `round(x, 2)`. -/
def round2 (x : ℚ) : ℚ := (roundHalfEven (x * 100) : ℚ) / 100

/-- One line of the coverage report: nominal level, rounded empirical
percentage, and the PASS/FAIL verdict (`true` = PASS). -/
structure CoverageLine where
  ideal : ℕ
  actual : ℚ
  verdict : Bool
deriving DecidableEq

/-- The coverage diagnostic (source `coverage_report`), modelled as the
list of records it prints: for each nominal level, the empirical coverage
of the column pair addressed by `lowerCol` / `upperCol` offsets from the
end of the row, rounded to two decimals, with PASS exactly when the
rounded percentage reaches the nominal level. -/
def coverage_report (submission : List (List ℚ)) (solution : List ℚ) :
    List CoverageLine :=
  coverages.enum.map (fun p =>
    let actual := round2 (meanCoverage (colFromEnd submission (lowerCol p.1))
      solution (colFromEnd submission (upperCol p.1)) * 100)
    { ideal := p.2, actual := actual, verdict := decide ((p.2 : ℚ) ≤ actual) })

/-! Definitions written from the spec's words, for the claims that compare
the code against a differently-phrased description. -/

/-- The pairing the spec describes for claim C1: each value keeps the
quantile level of its original, pre-sort position, i.e. the (value, level)
pairs are formed before sorting and then sorted jointly by value. -/
def curveOriginalIndex (preds : List ℚ) : List (ℚ × ℚ) :=
  List.insertionSort (fun a b => a.1 ≤ b.1)
    ((preds ++ [sentinelLow, sentinelHigh]).zip quantiles)

/-- The trapezoidal rule of the spec: sum over consecutive curve points of
`(value span) * (f at the left level + f at the right level) / 2`. -/
def trapezoidRule (f : ℚ → ℚ) : List (ℚ × ℚ) → ℚ
  | [] => 0
  | a :: rest =>
    (match rest with
     | [] => 0
     | b :: _ => (b.1 - a.1) * (f a.2 + f b.2) / 2) + trapezoidRule f rest

/-- The spec's description of one row's contribution (claim C4): interpolate
`q = y1 + (y2-y1)*(yTrue-x1)/(x2-x1)` between the boundary points, append
`(yTrue, q)` to the left partition and prepend it to the right one, then add
the trapezoidal integral of `level^2` on the left and of `(1-level)^2` on
the right. -/
def specRowContribution (preds : List ℚ) (yTrue : ℚ) : Option ℚ :=
  match (lhsPart preds yTrue).getLast?, (rhsPart preds yTrue).head? with
  | some l, some r =>
    if r.1 - l.1 = 0 then none
    else
      some (trapezoidRule (fun t => t ^ 2) (lhsPart preds yTrue ++
              [(yTrue, l.2 + (r.2 - l.2) * (yTrue - l.1) / (r.1 - l.1))]) +
            trapezoidRule (fun t => (1 - t) ^ 2)
              ((yTrue, l.2 + (r.2 - l.2) * (yTrue - l.1) / (r.1 - l.1)) ::
                rhsPart preds yTrue))
  | _, _ => none

/-- The spec's wording of the empirical coverage fraction (claim C8): the
number of rows whose ground truth lies between the lower and the upper
column value, divided by the number of rows. -/
def empiricalFraction (lows yTrues ups : List ℚ) : ℚ :=
  (((lows.zip (yTrues.zip ups)).filter
      (fun p => decide (p.1 ≤ p.2.1 ∧ p.2.1 ≤ p.2.2))).length : ℚ) /
    (yTrues.length : ℚ)

/-- A sample prediction row: 21 evenly spaced values around 0. -/
def sampleRow : List ℚ :=
  [-10, -9, -8, -7, -6, -5, -4, -3, -2, -1, 0, 1, 2, 3, 4, 5, 6, 7, 8, 9, 10]

/-! Helper lemmas. -/

theorem trapCDF_nil : trapCDF [] = 0 := rfl

theorem trapCDF_single (a : ℚ × ℚ) : trapCDF [a] = 0 := by
  show (0 : ℚ) + trapCDF [] = 0
  simp [trapCDF]

theorem trapCDF_cons_cons (a b : ℚ × ℚ) (t : List (ℚ × ℚ)) :
    trapCDF (a :: b :: t) = 1/2 * (b.1 - a.1) * (a.2 ^ 2 + b.2 ^ 2) + trapCDF (b :: t) := rfl

theorem trapSurv_nil : trapSurv [] = 0 := rfl

theorem trapSurv_single (a : ℚ × ℚ) : trapSurv [a] = 0 := by
  show (0 : ℚ) + trapSurv [] = 0
  simp [trapSurv]

theorem trapSurv_cons_cons (a b : ℚ × ℚ) (t : List (ℚ × ℚ)) :
    trapSurv (a :: b :: t) =
      1/2 * (b.1 - a.1) * ((1 - a.2) ^ 2 + (1 - b.2) ^ 2) + trapSurv (b :: t) := rfl

theorem trapezoidRule_nil (f : ℚ → ℚ) : trapezoidRule f [] = 0 := rfl

theorem trapezoidRule_single (f : ℚ → ℚ) (a : ℚ × ℚ) : trapezoidRule f [a] = 0 := by
  show (0 : ℚ) + trapezoidRule f [] = 0
  simp [trapezoidRule]

theorem trapezoidRule_cons_cons (f : ℚ → ℚ) (a b : ℚ × ℚ) (t : List (ℚ × ℚ)) :
    trapezoidRule f (a :: b :: t) =
      (b.1 - a.1) * (f a.2 + f b.2) / 2 + trapezoidRule f (b :: t) := rfl

theorem trapCDF_eq_trapezoidRule :
    ∀ l : List (ℚ × ℚ), trapCDF l = trapezoidRule (fun t => t ^ 2) l
  | [] => rfl
  | [a] => by rw [trapCDF_single, trapezoidRule_single]
  | a :: b :: t => by
    rw [trapCDF_cons_cons, trapezoidRule_cons_cons, trapCDF_eq_trapezoidRule (b :: t)]
    ring

theorem trapSurv_eq_trapezoidRule :
    ∀ l : List (ℚ × ℚ), trapSurv l = trapezoidRule (fun t => (1 - t) ^ 2) l
  | [] => rfl
  | [a] => by rw [trapSurv_single, trapezoidRule_single]
  | a :: b :: t => by
    rw [trapSurv_cons_cons, trapezoidRule_cons_cons, trapSurv_eq_trapezoidRule (b :: t)]
    ring

theorem getD_zip {α β : Type} (d₁ : α) (d₂ : β) :
    ∀ (l₁ : List α) (l₂ : List β) (i : ℕ), i < l₁.length → i < l₂.length →
      (l₁.zip l₂).getD i (d₁, d₂) = (l₁.getD i d₁, l₂.getD i d₂)
  | [], _, i, h₁, _ => by simp at h₁
  | _ :: _, [], i, _, h₂ => by simp at h₂
  | a :: l₁, b :: l₂, 0, _, _ => by simp
  | a :: l₁, b :: l₂, i + 1, h₁, h₂ => by
    simp only [List.zip_cons_cons, List.getD_cons_succ]
    exact getD_zip d₁ d₂ l₁ l₂ i (by simpa using h₁) (by simpa using h₂)

theorem quantiles_length : quantiles.length = 23 := rfl

theorem length_sortedXValues (preds : List ℚ) :
    (sortedXValues preds).length = preds.length + 2 := by
  simp [sortedXValues, List.length_insertionSort]

theorem mem_zip_left {α β : Type} :
    ∀ (l₁ : List α) (l₂ : List β), l₁.length ≤ l₂.length → ∀ a ∈ l₁, ∃ b, (a, b) ∈ l₁.zip l₂
  | [], _, _, a, ha => by simp at ha
  | _ :: _, [], h, a, ha => by simp at h
  | x :: l₁, y :: l₂, h, a, ha => by
    rcases List.mem_cons.mp ha with rfl | ha'
    · exact ⟨y, by simp⟩
    · obtain ⟨b, hb⟩ := mem_zip_left l₁ l₂ (by simpa using h) a ha'
      exact ⟨b, by simp [hb]⟩

theorem sentinelLow_mem_sortedXValues (preds : List ℚ) :
    sentinelLow ∈ sortedXValues preds :=
  (List.perm_insertionSort _ _).mem_iff.mpr (by simp)

theorem sentinelHigh_mem_sortedXValues (preds : List ℚ) :
    sentinelHigh ∈ sortedXValues preds :=
  (List.perm_insertionSort _ _).mem_iff.mpr (by simp)

theorem lhsPart_ne_nil (preds : List ℚ) (y : ℚ) (h : preds.length = 21)
    (h1 : sentinelLow < y) : lhsPart preds y ≠ [] := by
  obtain ⟨b, hb⟩ := mem_zip_left (sortedXValues preds) quantiles
    (by rw [length_sortedXValues, h, quantiles_length])
    sentinelLow (sentinelLow_mem_sortedXValues preds)
  exact List.ne_nil_of_mem (List.mem_filter.mpr ⟨hb, by simpa using h1⟩)

theorem rhsPart_ne_nil (preds : List ℚ) (y : ℚ) (h : preds.length = 21)
    (h2 : y < sentinelHigh) : rhsPart preds y ≠ [] := by
  obtain ⟨b, hb⟩ := mem_zip_left (sortedXValues preds) quantiles
    (by rw [length_sortedXValues, h, quantiles_length])
    sentinelHigh (sentinelHigh_mem_sortedXValues preds)
  exact List.ne_nil_of_mem (List.mem_filter.mpr ⟨hb, by simpa using le_of_lt h2⟩)

theorem mem_lhsPart_lt {preds : List ℚ} {y : ℚ} {p : ℚ × ℚ}
    (hp : p ∈ lhsPart preds y) : p.1 < y := by
  simpa using List.of_mem_filter hp

theorem mem_rhsPart_ge {preds : List ℚ} {y : ℚ} {p : ℚ × ℚ}
    (hp : p ∈ rhsPart preds y) : y ≤ p.1 := by
  simpa using List.of_mem_filter hp

theorem getLastD_mem {α : Type} {l : List α} (h : l ≠ []) (d : α) : l.getLastD d ∈ l := by
  rw [List.getLastD_eq_getLast?, List.getLast?_eq_getLast l h, Option.getD_some]
  exact List.getLast_mem h

theorem headD_mem {α : Type} {l : List α} (h : l ≠ []) (d : α) : l.headD d ∈ l := by
  cases l with
  | nil => exact absurd rfl h
  | cons a t => simp

theorem head?_eq_headD {α : Type} {l : List α} (h : l ≠ []) (d : α) :
    l.head? = some (l.headD d) := by
  cases l with
  | nil => exact absurd rfl h
  | cons a t => rfl

theorem getLast?_eq_getLastD {α : Type} {l : List α} (h : l ≠ []) (d : α) :
    l.getLast? = some (l.getLastD d) := by
  rw [List.getLastD_eq_getLast?, List.getLast?_eq_getLast l h, Option.getD_some]

theorem pairwise_fst_zip {α β : Type} {R : α → α → Prop} :
    ∀ (l₁ : List α) (l₂ : List β), l₁.Pairwise R →
      (l₁.zip l₂).Pairwise (fun a b => R a.1 b.1)
  | [], _, _ => by simp
  | _ :: _, [], _ => by simp
  | a :: l₁, b :: l₂, h => by
    rw [List.zip_cons_cons, List.pairwise_cons]
    refine ⟨?_, pairwise_fst_zip l₁ l₂ (List.pairwise_cons.mp h).2⟩
    intro p hp
    obtain ⟨x, z⟩ := p
    exact (List.pairwise_cons.mp h).1 x (List.of_mem_zip hp).1

theorem curve_pairwise (preds : List ℚ) :
    (curve preds).Pairwise (fun a b : ℚ × ℚ => a.1 ≤ b.1) :=
  pairwise_fst_zip _ _ (List.sorted_insertionSort _ _)

theorem lhsPart_pairwise (preds : List ℚ) (y : ℚ) :
    (lhsPart preds y).Pairwise (fun a b : ℚ × ℚ => a.1 ≤ b.1) :=
  (curve_pairwise preds).filter _

theorem rhsPart_pairwise (preds : List ℚ) (y : ℚ) :
    (rhsPart preds y).Pairwise (fun a b : ℚ × ℚ => a.1 ≤ b.1) :=
  (curve_pairwise preds).filter _

theorem trapCDF_nonneg :
    ∀ {l : List (ℚ × ℚ)}, l.Pairwise (fun a b => a.1 ≤ b.1) → 0 ≤ trapCDF l
  | [], _ => le_refl 0
  | [a], _ => by rw [trapCDF_single]
  | a :: b :: t, h => by
    rw [trapCDF_cons_cons]
    have hab : a.1 ≤ b.1 := (List.pairwise_cons.mp h).1 b (by simp)
    have hterm : (0 : ℚ) ≤ 1/2 * (b.1 - a.1) * (a.2 ^ 2 + b.2 ^ 2) :=
      mul_nonneg (mul_nonneg (by norm_num) (sub_nonneg.mpr hab))
        (add_nonneg (sq_nonneg _) (sq_nonneg _))
    exact add_nonneg hterm (trapCDF_nonneg (List.pairwise_cons.mp h).2)

theorem trapSurv_nonneg :
    ∀ {l : List (ℚ × ℚ)}, l.Pairwise (fun a b => a.1 ≤ b.1) → 0 ≤ trapSurv l
  | [], _ => le_refl 0
  | [a], _ => by rw [trapSurv_single]
  | a :: b :: t, h => by
    rw [trapSurv_cons_cons]
    have hab : a.1 ≤ b.1 := (List.pairwise_cons.mp h).1 b (by simp)
    have hterm : (0 : ℚ) ≤ 1/2 * (b.1 - a.1) * ((1 - a.2) ^ 2 + (1 - b.2) ^ 2) :=
      mul_nonneg (mul_nonneg (by norm_num) (sub_nonneg.mpr hab))
        (add_nonneg (sq_nonneg _) (sq_nonneg _))
    exact add_nonneg hterm (trapSurv_nonneg (List.pairwise_cons.mp h).2)

theorem rowScore_formula (preds : List ℚ) (y : ℚ)
    (hL : lhsPart preds y ≠ []) (hR : rhsPart preds y ≠ [])
    (hne : ((rhsPart preds y).headD (0, 0)).1 - ((lhsPart preds y).getLastD (0, 0)).1 ≠ 0) :
    rowScore preds y = some
      (trapCDF (lhsPart preds y ++
          [(y, (((rhsPart preds y).headD (0, 0)).2 - ((lhsPart preds y).getLastD (0, 0)).2) *
              (y - ((lhsPart preds y).getLastD (0, 0)).1) /
              (((rhsPart preds y).headD (0, 0)).1 - ((lhsPart preds y).getLastD (0, 0)).1) +
              ((lhsPart preds y).getLastD (0, 0)).2)]) +
        trapSurv ((y, (((rhsPart preds y).headD (0, 0)).2 - ((lhsPart preds y).getLastD (0, 0)).2) *
              (y - ((lhsPart preds y).getLastD (0, 0)).1) /
              (((rhsPart preds y).headD (0, 0)).1 - ((lhsPart preds y).getLastD (0, 0)).1) +
              ((lhsPart preds y).getLastD (0, 0)).2) :: rhsPart preds y)) := by
  rw [rowScore, getLast?_eq_getLastD hL (0, 0), head?_eq_headD hR (0, 0)]
  show (if _ = 0 then none else some _) = _
  rw [if_neg hne]

theorem rowScore_some_nonneg (preds : List ℚ) (y : ℚ)
    (hlen : preds.length = 21) (h1 : sentinelLow < y) (h2 : y < sentinelHigh) :
    ∃ c, rowScore preds y = some c ∧ 0 ≤ c := by
  have hL := lhsPart_ne_nil preds y hlen h1
  have hR := rhsPart_ne_nil preds y hlen h2
  have hx1 : ((lhsPart preds y).getLastD (0, 0)).1 < y :=
    mem_lhsPart_lt (getLastD_mem hL (0, 0))
  have hx2 : y ≤ ((rhsPart preds y).headD (0, 0)).1 :=
    mem_rhsPart_ge (headD_mem hR (0, 0))
  have hne : ((rhsPart preds y).headD (0, 0)).1 - ((lhsPart preds y).getLastD (0, 0)).1 ≠ 0 :=
    sub_ne_zero.mpr (ne_of_gt (lt_of_lt_of_le hx1 hx2))
  refine ⟨_, rowScore_formula preds y hL hR hne, add_nonneg ?_ ?_⟩
  · apply trapCDF_nonneg
    rw [List.pairwise_append]
    refine ⟨lhsPart_pairwise preds y, List.pairwise_singleton _ _, ?_⟩
    intro a ha b hb
    rw [List.mem_singleton.mp hb]
    exact le_of_lt (mem_lhsPart_lt ha)
  · apply trapSurv_nonneg
    rw [List.pairwise_cons]
    exact ⟨fun p hp => mem_rhsPart_ge hp, rhsPart_pairwise preds y⟩

theorem foldlM_rowScore_nonneg :
    ∀ (l : List (ℚ × List ℚ)) (a : ℚ), 0 ≤ a →
      (∀ p ∈ l, ∃ c, rowScore (lastN 21 (p.1 :: p.2)) p.1 = some c ∧ 0 ≤ c) →
      ∃ t, l.foldlM
          (fun acc p => (rowScore (lastN 21 (p.1 :: p.2)) p.1).map (fun c => acc + c))
          a = some t ∧ 0 ≤ t
  | [], a, ha, _ => ⟨a, rfl, ha⟩
  | p :: l, a, ha, h => by
    obtain ⟨c, hc, hc0⟩ := h p (by simp)
    obtain ⟨t, ht, ht0⟩ := foldlM_rowScore_nonneg l (a + c) (add_nonneg ha hc0)
      (fun p' hp' => h p' (by simp [hp']))
    refine ⟨t, ?_, ht0⟩
    rw [List.foldlM_cons, hc]
    simpa using ht

theorem foldlM_eq_mapM_sum (g : ℚ × List ℚ → Option ℚ) (l : List (ℚ × List ℚ)) :
    ∀ a : ℚ, l.foldlM (fun acc p => (g p).map (fun c => acc + c)) a =
        (l.mapM g).map (fun cs => a + cs.sum) := by
  induction l with
  | nil => intro a; simp [List.mapM, List.mapM.loop]
  | cons p l ih =>
    intro a
    rw [List.foldlM_cons, List.mapM_cons]
    cases hg : g p with
    | none => simp [hg]
    | some c =>
      simp only [hg, Option.map_some']
      show List.foldlM _ (a + c) l = _
      rw [ih (a + c)]
      cases hm : l.mapM g with
      | none => simp [hm]
      | some cs => simp [hm, add_assoc]

theorem crps_single (y : ℚ) (r : List ℚ) :
    crps [r] [y] = rowScore (lastN 21 (y :: r)) y := by
  rw [crps]
  cases h : rowScore (lastN 21 (y :: r)) y with
  | none => simp [h]
  | some c => simp [h]

theorem sortedXValues_replicate (y : ℚ) (h1 : sentinelLow ≤ y) (h2 : y ≤ sentinelHigh) :
    sortedXValues (List.replicate 21 y) =
      sentinelLow :: (List.replicate 21 y ++ [sentinelHigh]) := by
  apply List.eq_of_perm_of_sorted (r := (· ≤ ·))
  · exact (List.perm_insertionSort _ _).trans List.perm_middle
  · exact List.sorted_insertionSort _ _
  · rw [List.sorted_cons]
    constructor
    · intro b hb
      rcases List.mem_append.mp hb with hb' | hb'
      · rw [List.eq_of_mem_replicate hb']; exact h1
      · rw [List.mem_singleton.mp hb']
        show sentinelLow ≤ sentinelHigh
        norm_num [sentinelLow, sentinelHigh]
    · rw [List.Sorted, List.pairwise_append]
      refine ⟨?_, List.pairwise_singleton _ _, ?_⟩
      · exact List.pairwise_replicate.mpr (Or.inr le_rfl)
      · intro a ha b hb
        rw [List.eq_of_mem_replicate ha, List.mem_singleton.mp hb]
        exact h2

theorem lhsPart_replicate (y : ℚ) (h1 : sentinelLow < y) (h2 : y < sentinelHigh) :
    lhsPart (List.replicate 21 y) y = [(sentinelLow, 0)] := by
  rw [lhsPart, curve, sortedXValues_replicate y (le_of_lt h1) (le_of_lt h2)]
  have h60 : ¬ (sentinelHigh < y) := not_lt.mpr (le_of_lt h2)
  simp [quantiles, List.replicate, h1, h60]

theorem rhsPart_replicate (y : ℚ) (h1 : sentinelLow < y) (h2 : y < sentinelHigh) :
    rhsPart (List.replicate 21 y) y =
      [(y, 1/40), (y, 1/20), (y, 1/10), (y, 3/20), (y, 1/5), (y, 1/4), (y, 3/10),
       (y, 7/20), (y, 2/5), (y, 9/20), (y, 1/2), (y, 11/20), (y, 3/5), (y, 13/20),
       (y, 7/10), (y, 3/4), (y, 4/5), (y, 17/20), (y, 9/10), (y, 19/20), (y, 39/40),
       (sentinelHigh, 1)] := by
  rw [rhsPart, curve, sortedXValues_replicate y (le_of_lt h1) (le_of_lt h2)]
  have hlow : ¬ (y ≤ sentinelLow) := not_le.mpr h1
  have hhigh : y ≤ sentinelHigh := le_of_lt h2
  simp [quantiles, List.replicate, hlow, hhigh]

theorem rowScore_replicate (y : ℚ) (h1 : sentinelLow < y) (h2 : y < sentinelHigh) :
    rowScore (List.replicate 21 y) y = some (9/320) := by
  have hne : y - sentinelLow ≠ 0 := sub_ne_zero.mpr (ne_of_gt h1)
  rw [rowScore, lhsPart_replicate y h1 h2, rhsPart_replicate y h1 h2]
  simp only [List.getLast_singleton, List.head?_cons, hne, if_false,
    trapCDF_cons_cons, trapCDF_single, trapSurv_cons_cons, trapSurv_single,
    List.cons_append, List.nil_append, Option.some_inj, sentinelLow, sentinelHigh]
  have hne30 : y + 30 ≠ 0 := by
    intro h
    exact hne (by rw [sentinelLow]; linarith)
  field_simp
  exact ⟨fun h => hne30 (by linarith), by ring⟩

theorem meanCoverage_eq_empiricalFraction (lows yTrues ups : List ℚ)
    (h : lows.length = yTrues.length) :
    meanCoverage lows yTrues ups = empiricalFraction lows yTrues ups := by
  rw [meanCoverage, empiricalFraction, List.countP_eq_length_filter, h]
  have hpred : (fun p : ℚ × ℚ × ℚ => decide (p.1 ≤ p.2.1) && decide (p.2.2 ≥ p.2.1)) =
      (fun p : ℚ × ℚ × ℚ => decide (p.1 ≤ p.2.1 ∧ p.2.1 ≤ p.2.2)) := by
    funext p
    simp [Bool.decide_and, ge_iff_le]
  rw [hpred]

theorem length_colFromEnd (df : List (List ℚ)) (k : ℕ) :
    (colFromEnd df k).length = df.length := by
  simp [colFromEnd]

/-! Claim theorems. -/

/-- C8: each report line carries the empirical fraction of rows whose
ground truth lies between the lower and upper column values, as a
percentage rounded to two decimals, and its verdict is PASS exactly when
that rounded percentage is at least the nominal target, the boundary
included. -/
theorem coverage_report_line (subm : List (List ℚ)) (sol : List ℚ)
    (hlen : sol.length = subm.length) (i : ℕ) (hi : i < coverages.length) :
    ∃ line, (coverage_report subm sol)[i]? = some line ∧
      line.ideal = coverages.getD i 0 ∧
      line.actual = round2 (100 * empiricalFraction (colFromEnd subm (lowerCol i)) sol
        (colFromEnd subm (upperCol i))) ∧
      (line.verdict = true ↔ (line.ideal : ℚ) ≤ line.actual) := by
  have hmean : meanCoverage (colFromEnd subm (lowerCol i)) sol
      (colFromEnd subm (upperCol i)) =
      empiricalFraction (colFromEnd subm (lowerCol i)) sol
        (colFromEnd subm (upperCol i)) :=
    meanCoverage_eq_empiricalFraction _ _ _ (by rw [length_colFromEnd, hlen])
  refine ⟨{ ideal := coverages.getD i 0,
            actual := round2 (meanCoverage (colFromEnd subm (lowerCol i)) sol
              (colFromEnd subm (upperCol i)) * 100),
            verdict := decide ((coverages.getD i 0 : ℚ) ≤
              round2 (meanCoverage (colFromEnd subm (lowerCol i)) sol
                (colFromEnd subm (upperCol i)) * 100)) }, ?_, rfl, ?_, ?_⟩
  · rw [coverage_report, List.getElem?_map, List.getElem?_enum,
      List.getElem?_eq_getElem hi]
    simp only [Option.map_some', List.getD_eq_getElem _ _ hi]
  · show round2 (meanCoverage _ _ _ * 100) = _
    rw [hmean, mul_comm]
  · rw [decide_eq_true_eq]

/-- Witness for C8 on a concrete table at the 95% band. -/
theorem coverage_report_line_witness :
    ∃ line, (coverage_report [sampleRow] [0])[0]? = some line ∧
      line.ideal = coverages.getD 0 0 ∧
      line.actual = round2 (100 * empiricalFraction (colFromEnd [sampleRow] (lowerCol 0))
        [0] (colFromEnd [sampleRow] (upperCol 0))) ∧
      (line.verdict = true ↔ (line.ideal : ℚ) ≤ line.actual) :=
  coverage_report_line [sampleRow] [(0 : ℚ)] (by decide) 0 (by decide)

/-- C2 counterexample: for the perfect deterministic forecast (21 copies of
the ground truth 0) the score is not 0: the fixed sentinel trapezoids
always contribute, and the computed value is 9/320 = 0.028125. -/
theorem crps_perfect_forecast_not_zero :
    crps [List.replicate 21 (0 : ℚ)] [0] ≠ some 0 := by
  norm_num [crps, rowScore, lhsPart, rhsPart, curve, sortedXValues, quantiles,
    trapCDF, trapSurv, lastN, sentinelLow, sentinelHigh, List.replicate,
    List.foldlM, List.filter]

/-- C2 amended: for every ground truth strictly inside the sentinel
bracket, the single-row call on 21 predictions all equal to the ground
truth completes without a division-by-zero error, but returns the constant
9/320 (the two sentinel trapezoids), not 0. -/
theorem crps_perfect_forecast_value (y : ℚ)
    (h1 : sentinelLow < y) (h2 : y < sentinelHigh) :
    crps [List.replicate 21 y] [y] = some (9/320) := by
  have hlast : lastN 21 (y :: List.replicate 21 y) = List.replicate 21 y := by
    simp [lastN]
  rw [crps_single, hlast, rowScore_replicate y h1 h2]

/-- Witness for the amended C2 at ground truth 1. -/
theorem crps_perfect_forecast_value_witness :
    crps [List.replicate 21 (1 : ℚ)] [1] = some (9/320) :=
  crps_perfect_forecast_value 1 (by decide) (by decide)

/-- C5: on an aligned non-empty input the batch score is the arithmetic
mean of the scores of the aligned single-row calls: summing the values of
`crps` on each one-row pair and dividing by the row count reproduces the
batch call exactly. -/
theorem crps_batch_eq_mean (subm : List (List ℚ)) (sol : List ℚ)
    (hlen : sol.length = subm.length) (hpos : 0 < subm.length) :
    crps subm sol =
      ((sol.zip subm).mapM (fun p => crps [p.2] [p.1])).map
        (fun cs => cs.sum / (subm.length : ℚ)) := by
  have hmapM : ((sol.zip subm).mapM (fun p => crps [p.2] [p.1])) =
      ((sol.zip subm).mapM (fun p => rowScore (lastN 21 (p.1 :: p.2)) p.1)) := by
    simp only [crps_single]
  rw [hmapM, crps, foldlM_eq_mapM_sum (fun p => rowScore (lastN 21 (p.1 :: p.2)) p.1)]
  cases h : (sol.zip subm).mapM (fun p => rowScore (lastN 21 (p.1 :: p.2)) p.1) with
  | none => simp [h]
  | some cs => simp [h, Nat.pos_iff_ne_zero.mp hpos]

/-- Witness for C5 on a concrete two-row table. -/
theorem crps_batch_eq_mean_witness :
    crps [sampleRow, List.replicate 21 1] [0, 2] =
      ((([0, 2] : List ℚ).zip [sampleRow, List.replicate 21 1]).mapM
          (fun p => crps [p.2] [p.1])).map
        (fun cs => cs.sum /
          (([sampleRow, List.replicate 21 1] : List (List ℚ)).length : ℚ)) :=
  crps_batch_eq_mean [sampleRow, List.replicate 21 1] [0, 2] (by decide) (by decide)

/-- C6: on any valid input (21-value numeric rows, aligned tables, every
ground truth strictly inside the sentinel bracket, at least one row) the
score is a number and it is at least 0. -/
theorem crps_nonneg (subm : List (List ℚ)) (sol : List ℚ)
    (hlen : sol.length = subm.length) (hpos : 0 < subm.length)
    (hrows : ∀ r ∈ subm, r.length = 21)
    (hy : ∀ y ∈ sol, sentinelLow < y ∧ y < sentinelHigh) :
    ∃ v, crps subm sol = some v ∧ 0 ≤ v := by
  have hseed : ∀ p ∈ sol.zip subm,
      ∃ c, rowScore (lastN 21 (p.1 :: p.2)) p.1 = some c ∧ 0 ≤ c := by
    intro p hp
    obtain ⟨y, r⟩ := p
    have hmem := List.of_mem_zip hp
    have hr21 : lastN 21 (y :: r) = r := by
      simp [lastN, hrows r hmem.2]
    rw [hr21]
    exact rowScore_some_nonneg r y (hrows r hmem.2) (hy y hmem.1).1 (hy y hmem.1).2
  obtain ⟨t, ht, ht0⟩ := foldlM_rowScore_nonneg (sol.zip subm) 0 le_rfl hseed
  refine ⟨t / subm.length, ?_, div_nonneg ht0 (Nat.cast_nonneg _)⟩
  rw [crps, ht]
  show (if subm.length = 0 then none else some (t / (subm.length : ℚ))) = _
  rw [if_neg (Nat.pos_iff_ne_zero.mp hpos)]

/-- Witness for C6 on a concrete one-row table. -/
theorem crps_nonneg_witness :
    ∃ v, crps [sampleRow] [0] = some v ∧ 0 ≤ v :=
  crps_nonneg [sampleRow] [(0 : ℚ)] (by decide) (by decide) (by decide) (by decide)

/-- C3: for a 21-value row and a ground truth strictly inside the sentinel
bracket, both partitions are non-empty, the rightmost left value is
strictly below the leftmost right value, and hence the interpolation
succeeds: the row contribution is not an error. -/
theorem crps_partitions_welldefined (preds : List ℚ) (y : ℚ)
    (hlen : preds.length = 21) (h1 : sentinelLow < y) (h2 : y < sentinelHigh) :
    lhsPart preds y ≠ [] ∧ rhsPart preds y ≠ [] ∧
    ((lhsPart preds y).getLastD (0, 0)).1 < ((rhsPart preds y).headD (0, 0)).1 ∧
    rowScore preds y ≠ none := by
  have hL := lhsPart_ne_nil preds y hlen h1
  have hR := rhsPart_ne_nil preds y hlen h2
  have hx1 : ((lhsPart preds y).getLastD (0, 0)).1 < y :=
    mem_lhsPart_lt (getLastD_mem hL (0, 0))
  have hx2 : y ≤ ((rhsPart preds y).headD (0, 0)).1 :=
    mem_rhsPart_ge (headD_mem hR (0, 0))
  have hlt := lt_of_lt_of_le hx1 hx2
  have hne : ((rhsPart preds y).headD (0, 0)).1 - ((lhsPart preds y).getLastD (0, 0)).1 ≠ 0 :=
    sub_ne_zero.mpr (ne_of_gt hlt)
  refine ⟨hL, hR, hlt, ?_⟩
  rw [rowScore, getLast?_eq_getLastD hL (0, 0), head?_eq_headD hR (0, 0)]
  show (if _ = 0 then none else some _) ≠ none
  rw [if_neg hne]
  exact Option.some_ne_none _

/-- Witness for C3 on a concrete row and ground truth. -/
theorem crps_partitions_welldefined_witness :
    lhsPart sampleRow 0 ≠ [] ∧ rhsPart sampleRow 0 ≠ [] ∧
    ((lhsPart sampleRow 0).getLastD (0, 0)).1 < ((rhsPart sampleRow 0).headD (0, 0)).1 ∧
    rowScore sampleRow 0 ≠ none :=
  crps_partitions_welldefined sampleRow 0 (by decide) (by decide) (by decide)

/-- C1 counterexample: on the row of 21 equal predictions 0, the pairing
the code produces differs from the pairing in which each value keeps the
level of its original pre-sort index (the sentinel -30, originally at
index 21, would keep level 0.975, but the code pairs it with level 0). -/
theorem curve_pairing_not_original_index :
    curve (List.replicate 21 0) ≠ curveOriginalIndex (List.replicate 21 0) := by
  norm_num [curve, curveOriginalIndex, sortedXValues, quantiles, sentinelLow,
    sentinelHigh, List.replicate]

/-- C1 amended: after the sort, the pairing is positional in the sorted
order: the value at sorted index `i` is paired with the schedule entry at
index `i`, and the levels read off the curve are exactly the fixed schedule
in order. -/
theorem curve_pairing_positional_after_sort (preds : List ℚ) (h : preds.length = 21)
    (i : ℕ) (hi : i < 23) :
    (curve preds).getD i (0, 0) = ((sortedXValues preds).getD i 0, quantiles.getD i 0) ∧
    (curve preds).map Prod.snd = quantiles := by
  have h23 : (sortedXValues preds).length = 23 := by rw [length_sortedXValues, h]
  constructor
  · exact getD_zip 0 0 _ _ i (by rw [h23]; exact hi) (by rw [quantiles_length]; exact hi)
  · exact List.map_snd_zip _ _ (by rw [quantiles_length, h23])

/-- Witness for the amended C1 at a concrete row and index. -/
theorem curve_pairing_positional_after_sort_witness :
    (curve sampleRow).getD 3 (0, 0) =
      ((sortedXValues sampleRow).getD 3 0, quantiles.getD 3 0) ∧
    (curve sampleRow).map Prod.snd = quantiles :=
  curve_pairing_positional_after_sort sampleRow (by decide) 3 (by decide)

/-- C4: every row's CRPS contribution is exactly the spec's recipe: the
interpolated level `q = y1 + (y2-y1)*(y_true-x1)/(x2-x1)` at the boundary
points of the two partitions, `(y_true, q)` appended to the left partition
and prepended to the right one, then the trapezoidal-rule integral of
`level^2` on the left plus that of `(1-level)^2` on the right. -/
theorem rowScore_eq_specRowContribution (preds : List ℚ) (yTrue : ℚ) :
    rowScore preds yTrue = specRowContribution preds yTrue := by
  rw [rowScore, specRowContribution]
  cases (lhsPart preds yTrue).getLast? with
  | none => rfl
  | some l =>
    cases (rhsPart preds yTrue).head? with
    | none => rfl
    | some r =>
      simp only
      have hq : (r.2 - l.2) * (yTrue - l.1) / (r.1 - l.1) + l.2 =
          l.2 + (r.2 - l.2) * (yTrue - l.1) / (r.1 - l.1) := add_comm _ _
      rw [hq, trapCDF_eq_trapezoidRule, trapSurv_eq_trapezoidRule]

/-- C7: the coverage reporter walks the nominal levels 95..10 in descending
order and addresses the prediction columns by the offsets `2N+1-i` (lower)
and `i+1` (upper) from the end of the row, with `N = 10`; in particular the
95% band (index 0) reads the columns 21 and 1 places from the end. -/
theorem coverage_column_offsets :
    coverages = [95, 90, 80, 70, 60, 50, 40, 30, 20, 10] ∧
    (∀ i, i < coverages.length → lowerCol i = 2 * 10 + 1 - i ∧ upperCol i = i + 1) ∧
    lowerCol 0 = 21 ∧ upperCol 0 = 1 ∧
    ∀ subm sol, (coverage_report subm sol).map (fun line => line.ideal) = coverages := by
  refine ⟨rfl, by decide, rfl, rfl, ?_⟩
  intro subm sol
  rw [coverage_report, List.map_map]
  exact List.enum_map_snd coverages

/-- Witness for C7 at the first band. -/
theorem coverage_column_offsets_witness :
    lowerCol 0 = 2 * 10 + 1 - 0 ∧ upperCol 0 = 0 + 1 :=
  coverage_column_offsets.2.1 0 (by decide)

/-- C9: the score is a deterministic function of the two input tables, and
the run leaves both tables exactly as it found them: all modification
happens on the internal copy. -/
theorem crps_deterministic_no_mutation (subm subm' : List (List ℚ)) (sol sol' : List ℚ)
    (h1 : subm = subm') (h2 : sol = sol') :
    (crpsRun subm sol).2.1 = subm ∧ (crpsRun subm sol).2.2 = sol ∧
    (crpsRun subm sol).1 = (crpsRun subm' sol').1 ∧
    (crpsRun subm sol).1 = crps subm sol := by
  subst h1
  subst h2
  refine ⟨rfl, rfl, rfl, ?_⟩
  rw [crpsRun, crps]
  simp only [List.map_id', List.foldlM_map, List.headD_cons]

/-- Witness for C9 on a concrete pair of tables. -/
theorem crps_deterministic_no_mutation_witness :
    (crpsRun [sampleRow] [0]).2.1 = [sampleRow] ∧
    (crpsRun [sampleRow] [0]).2.2 = [0] ∧
    (crpsRun [sampleRow] [0]).1 = (crpsRun [sampleRow] [0]).1 ∧
    (crpsRun [sampleRow] [0]).1 = crps [sampleRow] [0] :=
  crps_deterministic_no_mutation [sampleRow] [sampleRow] [0] [0] rfl rfl

/-- C10: on an empty submission (with aligned empty solution) the score is
not a number: the accumulated total is divided by the row count 0, which is
the Python `ZeroDivisionError`, modelled as `none`. -/
theorem crps_empty_division_fails : crps [] [] = none := rfl

end SERTEMP
